import Mathlib

/-!
Shallow embedding of the gap-scan-web reconciliation pipeline (src/app.js).

Conventions of the embedding:
* JavaScript strings are Lean `String`s; character-level operations are
  defined on `List Char` and wrapped.
* JavaScript numbers are modelled as rationals (`ℚ`); the numeric claims
  here never depend on binary floating-point rounding.
* `null`/`undefined` cell values are modelled with `Option`, or are coerced
  to `""` where the source coerces them before use.
* JavaScript `Map` objects keyed by strings are modelled as functions
  `String → Option _` (or `String → ℚ` with the source's `get(...) || 0`
  default folded in), updated pointwise exactly where the source updates.
-/

namespace GapScan

/-- Whitespace test used by the embedding of JavaScript `String.trim`. -/
def wsp (c : Char) : Bool := c.isWhitespace

/-- Character-level embedding of JavaScript `String.prototype.trim`:
drop whitespace from both ends. -/
def trimChars (l : List Char) : List Char :=
  (l.dropWhile wsp).rdropWhile wsp

/-- JavaScript `s.trim()`. -/
def jsTrim (s : String) : String := String.mk (trimChars s.data)

/-- The test of the regular expression `/^\d+\.0$/` used by `normIntish`:
one or more digits, then a literal ".0", and nothing else. -/
def intDotZero (l : List Char) : Bool :=
  decide (l.length ≥ 3) && (l.drop (l.length - 2) == ['.', '0'])
    && (l.take (l.length - 2)).all Char.isDigit

/-- JavaScript `s.split(".")[0]`: the part of the string before the first
dot (the whole string when there is no dot). -/
def splitDotHead (l : List Char) : List Char := l.takeWhile (fun c => c != '.')

/-- Source `normIntish` from src/app.js: trim; if the value looks like an integer
with a trailing ".0", keep only the part before the dot; trim the result.
(`null`/`undefined` inputs are mapped to `""` by the source before this
string path; the embedding takes the string directly.) -/
def normIntish (x : String) : String :=
  let s := trimChars x.data
  let s2 := if intDotZero s then splitDotHead s else s
  String.mk (trimChars s2)

/-- Source `zfill` from src/app.js: left-pad with `'0'` to width `n`. -/
def zfill (s : String) (n : Nat) : String :=
  if s.length ≥ n then s
  else String.mk (List.replicate (n - s.length) '0' ++ s.data)

/-- The test of the regular expression `/^\d+$/`: a nonempty run of digits. -/
def digitRun (s : String) : Bool := !s.data.isEmpty && s.data.all Char.isDigit

/-- Source `normMaterial` from src/app.js: integerish normalization, then zero-pad
pure digit runs when a pad width is configured. -/
def normMaterial (x : String) (padTo : Nat) : String :=
  let s := normIntish x
  if padTo != 0 && digitRun s then zfill s padTo else s

/-- Source `normSloc` from src/app.js: same rule as `normMaterial` (the source
defaults the pad width to 4; the embedding passes it explicitly). -/
def normSloc (x : String) (padTo : Nat) : String :=
  let s := normIntish x
  if padTo != 0 && digitRun s then zfill s padTo else s

/-- Source `makeKey` from src/app.js: pipe-join of the three normalized fields. -/
def makeKey (plant material sloc : String) : String :=
  plant ++ "|" ++ material ++ "|" ++ sloc

/-! ### MB51 cells and per-cell parsers -/

/-- A raw spreadsheet cell as delivered by the workbook reader
(`sheet_to_json` with `defval:""`): a string, a number, or a date
(milliseconds since the Unix epoch).  Empty cells arrive as `str ""`. -/
inductive Cell where
  | str : String → Cell
  | num : ℚ → Cell
  | date : Int → Cell
deriving DecidableEq

/-- JavaScript `Math.round`: round half toward positive infinity. -/
def jsRound (q : ℚ) : Int := ⌊q + 1/2⌋

/-- JavaScript `String(x)` for a numeric cell.  Exact for integers (the
only numeric cells that are re-read as text by the pipeline); the decimal
rendering of non-integers by the host is approximated by the `Rat`
rendering, on which nothing below depends. -/
def jsNumToStr (q : ℚ) : String :=
  if q.den = 1 then toString q.num else toString q

/-- JavaScript `String(x)` for a date cell.  The host rendering is
environment-defined; nothing below depends on it. -/
def jsDateToStr (t : Int) : String := "[Date " ++ toString t ++ "]"

/-- JavaScript `String(x)` on a (non-null) cell value. -/
def cellStr : Cell → String
  | .str s => s
  | .num q => jsNumToStr q
  | .date t => jsDateToStr t

/-- The decimal-literal fragment of JavaScript `Number(string)`:
optional sign, digits with an optional fractional part.  (Exponent and
hex forms are not modelled; no claim depends on them.)  Returns `none`
for NaN. -/
def jsNumOfChars (l : List Char) : Option ℚ :=
  match l with
  | [] => some 0
  | _ =>
    let (sgn, l2) : ℚ × List Char :=
      match l with
      | '-' :: r => (-1, r)
      | '+' :: r => (1, r)
      | _ => (1, l)
    let ds := l2.takeWhile Char.isDigit
    let rest := l2.dropWhile Char.isDigit
    let intPart : ℚ := (ds.foldl (fun n c => 10 * n + (c.toNat - 48)) 0 : ℕ)
    match rest with
    | [] => if ds.isEmpty then none else some (sgn * intPart)
    | '.' :: r =>
      let fs := r.takeWhile Char.isDigit
      if (r.dropWhile Char.isDigit).isEmpty && !(ds.isEmpty && fs.isEmpty) then
        some (sgn * (intPart + (fs.foldl (fun n c => 10 * n + (c.toNat - 48)) 0 : ℕ) / (10 : ℚ) ^ fs.length))
      else none
    | _ => none

/-- Source `safeNumber` from src/app.js: `Number(String(x).replace(/,/g,"").trim())`,
defaulting to `0.0` when not finite.  For numeric cells the
string/number round trip is the identity. -/
def safeNumber (c : Cell) : ℚ :=
  match c with
  | .num q => q
  | _ => (jsNumOfChars (trimChars ((cellStr c).data.filter (fun ch => ch != ',')))).getD 0

/-- Source `excelSerialToDate` from src/app.js: Excel 1900-system serial number to
epoch milliseconds. -/
def excelSerialToDate (n : ℚ) : Int :=
  let utcDays := ⌊n - 25569⌋
  let utcValue := utcDays * 86400
  let fractional := n - ⌊n⌋
  let seconds := jsRound (fractional * 86400)
  utcValue * 1000 + seconds * 1000

/-- Source `parseDateCell` from src/app.js.  String cells fall back to the host's
`new Date(string)` parser, which is environment-defined; it is modelled
as the documented failure default (null).  No claim depends on it. -/
def parseDateCell (v : Cell) : Option Int :=
  match v with
  | .str "" => none
  | .date t => some t
  | .num n => some (excelSerialToDate n)
  | .str _ => none

/-- The match of `/^(\d{1,2}):(\d{2})(?::(\d{2}))?$/` on a trimmed string,
returning milliseconds since midnight. -/
def hhmmssMs (l : List Char) : Option Int :=
  let h := l.takeWhile Char.isDigit
  let r1 := l.dropWhile Char.isDigit
  if h.isEmpty || h.length > 2 then none
  else
    match r1 with
    | ':' :: r2 =>
      let m := r2.takeWhile Char.isDigit
      let r3 := r2.dropWhile Char.isDigit
      if m.length != 2 then none
      else
        let hh : Int := (h.foldl (fun n c => 10 * n + (c.toNat - 48)) 0 : ℕ)
        let mm : Int := (m.foldl (fun n c => 10 * n + (c.toNat - 48)) 0 : ℕ)
        match r3 with
        | [] => some ((hh * 3600 + mm * 60) * 1000)
        | ':' :: r4 =>
          let s := r4.takeWhile Char.isDigit
          if s.length = 2 && (r4.dropWhile Char.isDigit).isEmpty then
            some ((hh * 3600 + mm * 60 + (s.foldl (fun n c => 10 * n + (c.toNat - 48)) 0 : ℕ)) * 1000)
          else none
        | _ => none
    | _ => none

/-- Source `parseTimeToMs` from src/app.js.  The final `new Date("1970-01-01T…Z")`
fallback for strings that are not `HH:MM[:SS]` is environment-defined and
modelled as the documented zero default. -/
def parseTimeToMs (v : Cell) : Int :=
  match v with
  | .str "" => 0
  | .num q => jsRound (q * 86400 * 1000)
  | .str s => (hhmmssMs (jsTrim s).data).getD 0
  | .date _ => 0

/-! ### MB51 cleaning -/

def MB51_REQUIRED : List String :=
  ["Plant", "Material", "Material Description", "Storage Location",
   "Movement Type", "Movement Type Text", "Posting Date", "Time of Entry",
   "Qty in unit of entry"]

/-- A raw MB51 row: an ordered association of column names to cells, as
produced by the workbook reader. -/
def RawRow := List (String × Cell)

/-- Column access `r["col"]`; with `defval:""` every in-schema column is
present, so a missing key is modelled by the reader's `""` default. -/
def getCell (r : RawRow) (c : String) : Cell :=
  ((r.find? (fun p => p.1 == c)).map Prod.snd).getD (.str "")

/-- One cleaned MB51 movement record (the object built in `cleanMb51`). -/
structure CleanRow where
  Plant : String
  Material : String
  MaterialDescription : String
  StorageLocation : String
  MovementType : String
  MovementTypeText : String
  PostingDate : Option Int
  TimeOfEntry : Cell
  PostDateTime : Option Int
  Qty : ℚ
  Key : String
deriving DecidableEq

/-- The per-row body of `cleanMb51`. -/
def cleanRowOf (r : RawRow) (matPad slocPad : Nat) : CleanRow :=
  let plant := normIntish (cellStr (getCell r "Plant"))
  let material := normMaterial (cellStr (getCell r "Material")) matPad
  let sloc := normSloc (cellStr (getCell r "Storage Location")) slocPad
  let postDate := parseDateCell (getCell r "Posting Date")
  let timeMs := parseTimeToMs (getCell r "Time of Entry")
  let postDT := postDate.map (fun t => t + timeMs)
  let mvt := jsTrim (cellStr (getCell r "Movement Type"))
  let mvtTxt := jsTrim (cellStr (getCell r "Movement Type Text"))
  let qty := safeNumber (getCell r "Qty in unit of entry")
  let key := makeKey plant material sloc
  { Plant := plant, Material := material,
    MaterialDescription := jsTrim (cellStr (getCell r "Material Description")),
    StorageLocation := sloc, MovementType := mvt, MovementTypeText := mvtTxt,
    PostingDate := postDate, TimeOfEntry := getCell r "Time of Entry",
    PostDateTime := postDT, Qty := qty, Key := key }

/-- The output comparator of `cleanMb51` (ascending key, then ascending
timestamp with null timestamps read as 0), as a `≤`-style predicate for
the stable sort. -/
def cleanRowLE (a b : CleanRow) : Bool :=
  if a.Key < b.Key then true
  else if b.Key < a.Key then false
  else a.PostDateTime.getD 0 ≤ b.PostDateTime.getD 0

/-- Source `cleanMb51` from src/app.js: validate the header of the first row
(collecting every missing required column into one error), clean each row,
and stable-sort by key then timestamp. -/
def cleanMb51 (rows : List RawRow) (matPad slocPad : Nat) : Except String (List CleanRow) :=
  let cols := (rows.headD []).map (fun p => jsTrim p.1)
  let missing := MB51_REQUIRED.filter (fun c => !cols.contains c)
  if !missing.isEmpty then
    .error ("MB51 missing columns: " ++ String.intercalate ", " missing)
  else
    .ok ((rows.map (fun r => cleanRowOf r matPad slocPad)).mergeSort cleanRowLE)

/-! ### Movement replay engine -/

def SALES_MVTS : List String := ["251", "601"]
def RECEIPT_MVTS : List String := ["101"]
def COUNT_MVTS : List String := ["701", "702"]

/-- Source `computeExpectedSohMb51` from src/app.js: per-key sum of signed
quantities; the `map.get(key) || 0` default is the function's base case. -/
def computeExpectedSohMb51 (mb51 : List CleanRow) : String → ℚ :=
  mb51.foldl (fun m r => fun k => if k = r.Key then m r.Key + r.Qty else m k)
    (fun _ => 0)

/-- The per-key `Loss702_Sum` map of `runAnalysis`. -/
def loss702Map (mb51 : List CleanRow) : String → ℚ :=
  mb51.foldl
    (fun m r =>
      if r.MovementType ≠ "702" then m
      else fun k => if k = r.Key then m r.Key + r.Qty else m k)
    (fun _ => 0)

/-- The fields recorded per key by `lastEvent` (the `label`-prefixed
object of src/app.js). -/
structure EventFacts where
  DT : Option Int
  Qty : ℚ
  MvT : String
  Txt : String
deriving DecidableEq

/-- One step of the scan in `lastEvent`: skip rows outside the movement
set or without a timestamp; otherwise keep the stored row unless the new
row's timestamp is strictly greater. -/
def lastEventStep (mvts : List String) (last : String → Option CleanRow)
    (r : CleanRow) : String → Option CleanRow :=
  if !mvts.contains r.MovementType then last
  else
    match r.PostDateTime with
    | none => last
    | some t =>
      match last r.Key with
      | none => fun k => if k = r.Key then some r else last k
      | some cur =>
        if cur.PostDateTime.getD 0 < t then
          fun k => if k = r.Key then some r else last k
        else last

/-- The row-level scan of `lastEvent` from src/app.js. -/
def lastEventRow (mb51 : List CleanRow) (mvts : List String) :
    String → Option CleanRow :=
  mb51.foldl (lastEventStep mvts) (fun _ => none)

/-- Source `lastEvent` from src/app.js: the scan result converted to the
per-key field record. -/
def lastEvent (mb51 : List CleanRow) (mvts : List String) :
    String → Option EventFacts :=
  fun k => (lastEventRow mb51 mvts k).map
    (fun r => ⟨r.PostDateTime, r.Qty, r.MovementType, r.MovementTypeText⟩)

/-! ### MB5B quantity-line parsing

`parseQtyLine` matches `/([0-9]+(?:\.[0-9]+)?)\s*(-)?\s*(EA|PC|ST|KG|L|)\b/i`
against the text after the fixed marker.  The embedding implements the
leftmost-match backtracking semantics of this particular pattern. -/

/-- JavaScript `\w` (ASCII word character). -/
def wordChar (c : Char) : Bool := c.isAlphanum || c == '_'

/-- JavaScript `\b` between a preceding character and an optional next
character (end of string counts as non-word). -/
def boundary (prev : Char) (next : Option Char) : Bool :=
  wordChar prev != (match next with | some c => wordChar c | none => false)

/-- Case-sensitive prefix strip. -/
def stripPfx : List Char → List Char → Option (List Char)
  | [], cs => some cs
  | _, [] => none
  | t :: ts, c :: cs => if t == c then stripPfx ts cs else none

/-- Case-insensitive prefix strip (the regex has the `i` flag). -/
def stripPfxCI : List Char → List Char → Option (List Char)
  | [], cs => some cs
  | _, [] => none
  | t :: ts, c :: cs => if t.toUpper == c.toUpper then stripPfxCI ts cs else none

/-- JavaScript `s.startsWith(t)`. -/
def strStartsWith (s t : String) : Bool := t.data.isPrefixOf s.data

def qtyUnits : List String := ["EA", "PC", "ST", "KG", "L"]

/-- The tail `(EA|PC|ST|KG|L|)\b` of the quantity regex at a position whose
preceding character is `pc`: either a unit token followed by a word
boundary, or the empty alternative with a word boundary here.  (The regex
tries the alternatives in order; since only success matters to the overall
match value, the order is immaterial.) -/
def unitTailOk (pc : Char) (cs : List Char) : Bool :=
  qtyUnits.any (fun u =>
    match stripPfxCI u.data cs with
    | some rest => boundary (u.data.getLastD 'A') rest.head?
    | none => false)
  || boundary pc cs.head?

/-- Backtracking over a greedy `\s*`: try the continuation after each
number of consumed whitespace characters (the Boolean outcome does not
depend on which split succeeds first). -/
def spaceSplits (pc : Char) (cs : List Char) (f : Char → List Char → Bool) : Bool :=
  f pc cs ||
    (match cs with
     | c :: rest => if wsp c then spaceSplits c rest f else false
     | [] => false)

/-- The continuation `\s*(-)?\s*(EA|PC|ST|KG|L|)\b` after the numeric
group, whose last character is `pc`.  Returns `some negated` on success.
A present minus is preferred (the regex tries `(-)?` with the minus
first), and the minus can only sit immediately after the full leading
whitespace run. -/
def contAfterNum (pc : Char) (cs : List Char) : Option Bool :=
  let rest := cs.dropWhile wsp
  let minusOk :=
    match rest with
    | '-' :: r2 => spaceSplits '-' r2 unitTailOk
    | _ => false
  if minusOk then some true
  else if spaceSplits pc cs unitTailOk then some false
  else none

/-- Numeric value of a digit run. -/
def ratOfDigits (ds : List Char) : ℚ :=
  ((ds.foldl (fun n c => 10 * n + (c.toNat - 48)) 0 : ℕ) : ℚ)

/-- The greedy fractional part `(?:\.[0-9]+)?` taken together with the
regex continuation: succeeds only when a dot plus digits follows the
integer digits `ds` and the continuation then matches. -/
def fracTry (ds rest0 : List Char) : Option (ℚ × Bool) :=
  match rest0 with
  | '.' :: r =>
    let fs := r.takeWhile Char.isDigit
    if fs.isEmpty then none
    else
      match contAfterNum (fs.getLastD '0') (r.dropWhile Char.isDigit) with
      | some neg => some (ratOfDigits ds + ratOfDigits fs / (10 : ℚ) ^ fs.length, neg)
      | none => none
  | _ => none

/-- Attempt the whole quantity pattern at the current position (which must
start with a digit).  The greedy numeric group backtracks from
"digits.digits" to "digits"; shortening a digit run always places a digit
directly after the group and then no continuation can succeed, so those
backtracks are elided. -/
def tryNumAt (cs : List Char) : Option (ℚ × Bool) :=
  let ds := cs.takeWhile Char.isDigit
  let rest0 := cs.dropWhile Char.isDigit
  if ds.isEmpty then none
  else
    match fracTry ds rest0 with
    | some res => some res
    | none =>
      match contAfterNum (ds.getLastD '0') rest0 with
      | some neg => some (ratOfDigits ds, neg)
      | none => none

/-- Leftmost match of the quantity pattern: try every start position in
order (the pattern can only start at a digit). -/
def firstQtyMatch : List Char → Option (ℚ × Bool)
  | [] => none
  | c :: cs =>
    if c.isDigit then
      match tryNumAt (c :: cs) with
      | some r => some r
      | none => firstQtyMatch cs
    else firstQtyMatch cs

/-- Source `parseQtyLine` from src/app.js: require the marker at the start of the
trimmed line, search the numeric pattern only in the text after the
marker, negate on a matched minus. -/
def parseQtyLine (pfx : String) (s : String) : Option ℚ :=
  let t := jsTrim s
  if !strStartsWith t pfx then none
  else
    let tl := jsTrim (String.mk (t.data.drop pfx.length))
    match firstQtyMatch tl.data with
    | none => none
    | some (q, neg) => some (if neg then -q else q)

/-! ### MB5B block parsing

The grid is modelled after the JavaScript `String(...)` coercion that the
source applies to every cell it reads (`sheet_to_json` with `header:1,
defval:""`), so cells are strings; a row shorter than the accessed index
models `undefined` via `Option`/the `?? ""` default. -/

/-- Access `row[i] ?? ""`. -/
def cellAtD (row : List String) (i : Nat) : String := (row.get? i).getD ""

/-- The trimmed first-column view `col0` of `parseMb5bBlocks`. -/
def col0 (rows2d : List (List String)) : List String :=
  rows2d.map (fun r => jsTrim (cellAtD r 0))

/-- The non-empty first-column lines `lines0` of one block. -/
def linesZero (block : List (List String)) : List String :=
  (block.map (fun r => cellAtD r 0)).filter (fun x => (jsTrim x).length != 0)

/-- The match `tok` + `\s+` + captured `(\d+)` at the current position. -/
def tokenDigitsAt (tok : List Char) (cs : List Char) : Option (List Char) :=
  match stripPfx tok cs with
  | none => none
  | some rest =>
    if (rest.takeWhile wsp).isEmpty then none
    else
      let ds := (rest.dropWhile wsp).takeWhile Char.isDigit
      if ds.isEmpty then none else some ds

/-- Leftmost search for `tok\s+(\d+)` (used for `/Plant\s+(\d+)/` and
`/Material\s+(\d+)/`; the source's `line.includes("Material")` guard is
subsumed by the search). -/
def searchTokenDigits (tok : List Char) : List Char → Option (List Char)
  | [] => none
  | c :: cs =>
    match tokenDigitsAt tok (c :: cs) with
    | some ds => some ds
    | none => searchTokenDigits tok cs

def findTokenDigits (tok : String) (s : String) : Option String :=
  (searchTokenDigits tok.data s.data).map String.mk

/-- The capture of `/Description\s+(.*)$/` at the current position. -/
def descAt (cs : List Char) : Option (List Char) :=
  match stripPfx "Description".data cs with
  | none => none
  | some rest =>
    if (rest.takeWhile wsp).isEmpty then none
    else some (rest.dropWhile wsp)

/-- Leftmost search for `/Description\s+(.*)$/`. -/
def searchDesc : List Char → Option (List Char)
  | [] => none
  | c :: cs =>
    match descAt (c :: cs) with
    | some d => some d
    | none => searchDesc cs

def stockMarker : String := "Stock on 31.12.9999"

/-- The running state of the per-block first-column scan. -/
structure BlockScanState where
  material : String
  desc : String
  closeQty : Option ℚ
deriving DecidableEq

/-- The material detector of the per-block scan (fires only while the
field is unset — first match wins). -/
def scanMaterial (st : BlockScanState) (line : String) : BlockScanState :=
  if st.material == "" then
    match findTokenDigits "Material" line with
    | some m => { st with material := m }
    | none => st
  else st

/-- The description detector of the per-block scan. -/
def scanDesc (st : BlockScanState) (line : String) : BlockScanState :=
  if st.desc == "" && strStartsWith (jsTrim line) "Description" then
    match searchDesc line.data with
    | some d => { st with desc := jsTrim (String.mk d) }
    | none => st
  else st

/-- The closing-stock detector of the per-block scan
(`if (closeQty === null)` — first match wins). -/
def scanClose (st : BlockScanState) (line : String) : BlockScanState :=
  if st.closeQty.isNone then
    match parseQtyLine stockMarker line with
    | some q => { st with closeQty := some q }
    | none => st
  else st

/-- One line of the per-block scan: the three detectors in source order. -/
def blockScanStep (st : BlockScanState) (line : String) : BlockScanState :=
  scanClose (scanDesc (scanMaterial st line) line) line

/-- The per-block scan over the first 140 non-empty first-column lines. -/
def blockScan (block : List (List String)) : BlockScanState :=
  ((linesZero block).take 140).foldl blockScanStep ⟨"", "", none⟩

/-- The plant id extracted from the block's first non-empty line. -/
def blockPlant (block : List (List String)) : String :=
  (findTokenDigits "Plant" ((linesZero block).headD "")).getD ""

/-- The index of the detail-table header row: second cell "Loca", third
cell "MvT" (trimmed). -/
def slocHeaderIdx (block : List (List String)) : Option Nat :=
  (List.range block.length).find?
    (fun r => jsTrim (cellAtD (block.getD r []) 1) == "Loca"
      && jsTrim (cellAtD (block.getD r []) 2) == "MvT")

/-- The storage-location candidates scanned below the header row: the
source iterates `rr` from `r+2`, stops at the next row whose first cell
starts with "Plant", and collects normalized non-empty second cells. -/
def slocCandidates (block : List (List String)) (slocPad : Nat) (r : Nat) :
    List String :=
  ((block.drop (r + 2)).takeWhile
      (fun row => !strStartsWith (jsTrim (cellAtD row 0)) "Plant")).filterMap
    (fun row =>
      match row.get? 1 with
      | some v => if jsTrim v != "" then some (normSloc v slocPad) else none
      | none => none)

/-- Insertion-ordered deduplication, worker: `seen` holds the values
already emitted. -/
def firstDedupAux (seen : List String) : List String → List String
  | [] => []
  | x :: xs =>
    if seen.contains x then firstDedupAux seen xs
    else x :: firstDedupAux (x :: seen) xs

/-- Insertion-ordered deduplication (JavaScript `Set` semantics): keep the
first occurrence of every value. -/
def firstDedup (l : List String) : List String := firstDedupAux [] l

/-- The storage-location inference of `parseMb5bBlocks`. -/
def inferSloc (block : List (List String)) (slocPad : Nat) : String :=
  match slocHeaderIdx block with
  | none => ""
  | some r =>
    let s := firstDedup (slocCandidates block slocPad r)
    if s.length == 1 then s.headD ""
    else if s.length > 1 then "MULTI"
    else ""

/-- One Snapshot Record recovered from a block. -/
structure SnapRow where
  Plant : String
  Material : String
  StorageLocation : String
  MaterialDescription : String
  SAP_SOH_MB5B : ℚ
  Key : String
deriving DecidableEq

/-- The record built for one block by `parseMb5bBlocks`. -/
def parseBlock (block : List (List String)) (matPad slocPad : Nat) : SnapRow :=
  let st := blockScan block
  let plant := blockPlant block
  let sloc := inferSloc block slocPad
  let plantN := normIntish plant
  let matN := normMaterial st.material matPad
  let slocN := if sloc == "MULTI" then "MULTI" else normSloc sloc slocPad
  { Plant := plantN, Material := matN, StorageLocation := slocN,
    MaterialDescription := st.desc,
    SAP_SOH_MB5B := (st.closeQty).getD 0,
    Key := makeKey plantN matN slocN }

/-- Block-order deduplication by key, keeping the first occurrence. -/
def dedupByKey (l : List SnapRow) : List SnapRow :=
  l.foldl (fun acc b => if (acc.map SnapRow.Key).contains b.Key then acc else acc ++ [b]) []

/-- Source `parseMb5bBlocks` from src/app.js: segment the grid at rows whose
trimmed first cell starts with "Plant", fail when there is none, parse
each non-empty block, and deduplicate by key. -/
def parseMb5bBlocks (rows2d : List (List String)) (matPad slocPad : Nat) :
    Except String (List SnapRow) :=
  let c0 := col0 rows2d
  let plantIdx := (List.range rows2d.length).filter
    (fun i => strStartsWith (c0.getD i "") "Plant")
  if plantIdx.isEmpty then
    .error "MB5B format not recognized (no 'Plant' blocks found). Export MB5B in detail/block format."
  else
    let bounds := plantIdx.zip (plantIdx.drop 1 ++ [rows2d.length])
    let blocks := bounds.map (fun se => (rows2d.drop se.1).take (se.2 - se.1))
    .ok (dedupByKey
      ((blocks.filter (fun b => !(linesZero b).isEmpty)).map
        (fun b => parseBlock b matPad slocPad)))

/-! ### Expectation classifier -/

/-- JavaScript `Number.toFixed(2)` on a rational (approximating the host's float
rendering; no claim depends on the rendered digits). -/
def toFixed2 (q : ℚ) : String :=
  let n := (jsRound (|q| * 100)).toNat
  let sgn := if q < 0 then "-" else ""
  sgn ++ toString (n / 100) ++ "." ++ (if n % 100 < 10 then "0" else "") ++ toString (n % 100)

/-- The classifier's input fields (the reconciled-row fields it reads);
`Days_Since_*` is `none` where the source holds `NaN`. -/
structure ClassifierRow where
  SAP_SOH_MB5B : ℚ
  Expected_SOH_MB51 : ℚ
  Delta_SAP_minus_Expected : ℚ
  Days_Since_LastCount : Option ℚ
  Days_Since_LastReceipt : Option ℚ
  Days_Since_LastSale : Option ℚ
  Loss702_Sum : ℚ

structure ExpectationResult where
  Expectation : String
  Summary : String
deriving DecidableEq

/-- JavaScript `Number.isFinite(d) && d ≤ c` for a possibly-NaN value. -/
def finiteLE (d : Option ℚ) (c : ℚ) : Bool :=
  match d with | some v => v ≤ c | none => false

/-- JavaScript `Number.isFinite(d) && d > c` for a possibly-NaN value. -/
def finiteGT (d : Option ℚ) (c : ℚ) : Bool :=
  match d with | some v => v > c | none => false

/-- Source `expectationAndReason` from src/app.js: the rule sequence over the
provisional tier, with the rationale lines collected in firing order and
the first three joined by spaces. -/
def expectationAndReason (row : ClassifierRow) (tol : ℚ) : ExpectationResult :=
  let sap := row.SAP_SOH_MB5B
  let delta := row.Delta_SAP_minus_Expected
  let dCount := row.Days_Since_LastCount
  let dRec := row.Days_Since_LastReceipt
  let dSale := row.Days_Since_LastSale
  let loss702 := row.Loss702_Sum
  if sap ≤ 0 then
    { Expectation := "N/A", Summary := "SAP shows 0 on-hand (no stock expected)." }
  else
    let rb1 : List String × String :=
      if |delta| ≤ tol then
        (["SAP SOH matches movement replay (consistent)."], "HIGH")
      else
        (["SAP SOH differs from movement replay by " ++ toFixed2 delta ++ " (mismatch)."],
         if |delta| ≤ 5 then "MEDIUM" else "LOW")
    let rb2 : List String × String :=
      if finiteLE dRec 14 then
        (rb1.1 ++ ["Recent receipt → stock likely exists somewhere (backroom possible)."],
         if rb1.2 = "MEDIUM" then "HIGH" else rb1.2)
      else if !dRec.isSome || finiteGT dRec 90 then
        (rb1.1 ++ ["No recent receipts → less likely to be in backroom."],
         if rb1.2 = "HIGH" then "MEDIUM" else rb1.2)
      else rb1
    let rb3 : List String × String :=
      if finiteLE dSale 14 then
        (rb2.1 ++ ["Recent sales → item is active (stock movement ongoing)."], rb2.2)
      else rb2
    let rb4 : List String × String :=
      if loss702 < 0 then
        (rb3.1 ++ ["702 loss history (" ++ toFixed2 loss702 ++ ") → higher chance of shrink / missing stock."],
         if rb3.2 = "HIGH" then "MEDIUM" else if rb3.2 = "MEDIUM" then "LOW" else rb3.2)
      else rb3
    let rb5 : List String × String :=
      if !dCount.isSome then
        (rb4.1 ++ ["No 701/702 count event found → confidence weaker."],
         if rb4.2 = "HIGH" then "MEDIUM" else rb4.2)
      else if finiteGT dCount 180 then
        (rb4.1 ++ ["Last count is old → more uncertainty."],
         if rb4.2 = "HIGH" then "MEDIUM" else rb4.2)
      else rb4
    { Expectation := rb5.2, Summary := String.intercalate " " (rb5.1.take 3) }

/-! ### Reconciliation orchestrator: final sort -/

/-- The reconciled-row fields read by the final sort of `runAnalysis`
(plus identity/rationale fields that ride along). -/
structure ResultRow where
  Key : String
  SAP_SOH_MB5B : ℚ
  Expectation : String
  Summary : String
deriving DecidableEq

/-- Lookup `order[tier] ?? 9` with `order = {LOW:0, MEDIUM:1, HIGH:2, "N/A":3}`. -/
def tierOrder (e : String) : Nat :=
  if e = "LOW" then 0
  else if e = "MEDIUM" then 1
  else if e = "HIGH" then 2
  else if e = "N/A" then 3
  else 9

/-- The positive-stock group flag `(x.SAP_SOH_MB5B > 0) ? 1 : 0`. -/
def posFlag (a : ResultRow) : ℚ := if a.SAP_SOH_MB5B > 0 then 1 else 0

/-- The three-level comparator of the final sort in `runAnalysis`:
rows with positive reported stock first, then ascending tier rank, then
descending reported stock. -/
def cmpResult (a b : ResultRow) : ℚ :=
  if posFlag a ≠ posFlag b then posFlag b - posFlag a
  else if tierOrder a.Expectation ≠ tierOrder b.Expectation then
    (tierOrder a.Expectation : ℚ) - (tierOrder b.Expectation : ℚ)
  else b.SAP_SOH_MB5B - a.SAP_SOH_MB5B

/-- The comparator as a `≤`-style predicate for the stable sort
(JavaScript `Array.prototype.sort` is specified stable). -/
def resultLE (a b : ResultRow) : Bool := cmpResult a b ≤ 0

/-- The final sort of `runAnalysis`. -/
def sortResultRows (rows : List ResultRow) : List ResultRow :=
  rows.mergeSort resultLE

/-! ## Helper lemmas: trimming and digit runs -/

theorem dropWhile_trimChars (l : List Char) :
    (trimChars l).dropWhile wsp = trimChars l := by
  rw [List.dropWhile_eq_self_iff]
  intro hl
  have hpre : trimChars l <+: l.dropWhile wsp :=
    List.rdropWhile_prefix wsp (l.dropWhile wsp)
  have hlen : 0 < (l.dropWhile wsp).length := lt_of_lt_of_le hl hpre.length_le
  have hg : (trimChars l).get ⟨0, hl⟩ = (l.dropWhile wsp).get ⟨0, hlen⟩ := by
    simpa [List.get_eq_getElem] using hpre.getElem hl
  rw [hg]
  exact List.dropWhile_get_zero_not wsp l hlen

theorem trimChars_trimChars (l : List Char) :
    trimChars (trimChars l) = trimChars l := by
  show ((trimChars l).dropWhile wsp).rdropWhile wsp = trimChars l
  rw [dropWhile_trimChars]
  show ((l.dropWhile wsp).rdropWhile wsp).rdropWhile wsp = trimChars l
  rw [List.rdropWhile_idempotent]
  rfl

theorem trimChars_of_forall_not_wsp (l : List Char) (h : ∀ c ∈ l, ¬ wsp c) :
    trimChars l = l := by
  unfold trimChars
  rw [List.dropWhile_eq_self_iff.mpr fun hl => h _ (List.get_mem l 0 hl)]
  rw [List.rdropWhile_eq_self_iff.mpr fun hl => h _ (List.getLast_mem hl)]

theorem not_wsp_of_isDigit {c : Char} (h : c.isDigit = true) : ¬ wsp c = true := by
  intro hw
  unfold wsp at hw
  simp only [Char.isWhitespace, Bool.or_eq_true, decide_eq_true_eq] at hw
  have hne : c ≠ ' ' ∧ c ≠ '\t' ∧ c ≠ '\x0d' ∧ c ≠ '\n' := by
    refine ⟨?_, ?_, ?_, ?_⟩ <;> rintro rfl <;> exact absurd h (by decide)
  tauto

theorem ne_dot_of_isDigit {c : Char} (h : c.isDigit = true) : (c != '.') = true := by
  rcases eq_or_ne c '.' with rfl | hne
  · exact absurd h (by decide)
  · simpa using hne

theorem intDotZero_decomp {l : List Char} (h : intDotZero l = true) :
    l.take (l.length - 2) ≠ [] ∧ (∀ c ∈ l.take (l.length - 2), c.isDigit) ∧
      l = l.take (l.length - 2) ++ ['.', '0'] := by
  unfold intDotZero at h
  simp only [Bool.and_eq_true, decide_eq_true_eq, beq_iff_eq, List.all_eq_true] at h
  obtain ⟨⟨h3, hdrop⟩, hall⟩ := h
  refine ⟨?_, hall, ?_⟩
  · have : (l.take (l.length - 2)).length = l.length - 2 := by
      rw [List.length_take]
      omega
    intro hnil
    rw [hnil] at this
    simp at this
    omega
  · conv_lhs => rw [← List.take_append_drop (l.length - 2) l]
    rw [hdrop]

theorem splitDotHead_digits_append (d : List Char) (hd : ∀ c ∈ d, c.isDigit) :
    splitDotHead (d ++ ['.', '0']) = d := by
  unfold splitDotHead
  rw [List.takeWhile_append_of_pos (fun a ha => ne_dot_of_isDigit (hd a ha))]
  simp

theorem intDotZero_digits {l : List Char} (h2 : ∀ c ∈ l, c.isDigit) :
    intDotZero l = false := by
  unfold intDotZero
  by_cases h3 : 3 ≤ l.length
  · have hdig : ∀ c ∈ l.drop (l.length - 2), c.isDigit :=
      fun c hc => h2 c (List.mem_of_mem_drop hc)
    have hne : (l.drop (l.length - 2) == ['.', '0']) = false := by
      rw [beq_eq_false_iff_ne]
      intro he
      have : ('.' : Char).isDigit := hdig '.' (by rw [he]; simp)
      exact absurd this (by decide)
    simp [hne]
  · simp [h3]

theorem normIntish_eq_self_of (s : String) (h1 : trimChars s.data = s.data)
    (h2 : intDotZero s.data = false) : normIntish s = s := by
  unfold normIntish
  dsimp only
  rw [h1, if_neg (by simp [h2]), h1]

theorem normIntish_all_digits (s : String) (h1 : s.data ≠ [])
    (h2 : ∀ c ∈ s.data, c.isDigit) : normIntish s = s :=
  normIntish_eq_self_of s
    (trimChars_of_forall_not_wsp _ fun c hc => not_wsp_of_isDigit (h2 c hc))
    (intDotZero_digits h2)

theorem normIntish_invariant (s : String) :
    trimChars (normIntish s).data = (normIntish s).data ∧
      intDotZero (normIntish s).data = false := by
  by_cases h : intDotZero (trimChars s.data) = true
  · obtain ⟨hne, hdig, hdecomp⟩ := intDotZero_decomp h
    have h1 : normIntish s =
        String.mk ((trimChars s.data).take ((trimChars s.data).length - 2)) := by
      unfold normIntish
      dsimp only
      rw [if_pos h]
      conv_lhs => rw [hdecomp]
      rw [splitDotHead_digits_append _ hdig,
        trimChars_of_forall_not_wsp _ fun c hc => not_wsp_of_isDigit (hdig c hc)]
    rw [h1]
    refine ⟨trimChars_of_forall_not_wsp _ fun c hc => not_wsp_of_isDigit (hdig c hc), ?_⟩
    exact intDotZero_digits hdig
  · have h1 : normIntish s = String.mk (trimChars s.data) := by
      unfold normIntish
      dsimp only
      rw [if_neg h, trimChars_trimChars]
    rw [h1]
    simp only [Bool.not_eq_true] at h
    exact ⟨trimChars_trimChars _, h⟩

theorem normIntish_normIntish (s : String) :
    normIntish (normIntish s) = normIntish s :=
  normIntish_eq_self_of _ (normIntish_invariant s).1 (normIntish_invariant s).2

theorem zfill_length_ge (s : String) (n : Nat) : n ≤ (zfill s n).length := by
  unfold zfill
  split
  · omega
  · simp only [String.length, List.length_append, List.length_replicate]
    omega

theorem zfill_of_length_ge (s : String) (n : Nat) (h : n ≤ s.length) :
    zfill s n = s := by
  unfold zfill
  rw [if_pos h]

theorem zfill_digits (s : String) (n : Nat) (h : ∀ c ∈ s.data, c.isDigit) :
    ∀ c ∈ (zfill s n).data, c.isDigit := by
  unfold zfill
  split
  · exact h
  · intro c hc
    simp only [List.mem_append, List.mem_replicate] at hc
    rcases hc with ⟨_, rfl⟩ | hc
    · decide
    · exact h c hc

theorem zfill_ne_nil (s : String) (n : Nat) (h : s.data ≠ []) :
    (zfill s n).data ≠ [] := by
  unfold zfill
  split
  · exact h
  · simp [h]

theorem digitRun_spec (s : String) :
    digitRun s = true ↔ (s.data ≠ [] ∧ ∀ c ∈ s.data, c.isDigit) := by
  unfold digitRun
  simp [List.isEmpty_iff]

theorem normMaterial_normMaterial (s : String) (w : Nat) :
    normMaterial (normMaterial s w) w = normMaterial s w := by
  by_cases hc : (w != 0 && digitRun (normIntish s)) = true
  · have h1 : normMaterial s w = zfill (normIntish s) w := by
      unfold normMaterial
      dsimp only
      rw [if_pos hc]
    obtain ⟨hw, hd⟩ := Bool.and_eq_true_iff.mp hc
    obtain ⟨hne, hdig⟩ := (digitRun_spec _).mp hd
    have hzd := zfill_digits (normIntish s) w hdig
    have hzn := zfill_ne_nil (normIntish s) w hne
    have h2 : normIntish (zfill (normIntish s) w) = zfill (normIntish s) w :=
      normIntish_all_digits _ hzn hzd
    have hdr : digitRun (zfill (normIntish s) w) = true :=
      (digitRun_spec _).mpr ⟨hzn, hzd⟩
    rw [h1]
    unfold normMaterial
    dsimp only
    rw [h2, if_pos (by simp [hw, hdr])]
    exact zfill_of_length_ge _ _ (zfill_length_ge _ _)
  · have h1 : normMaterial s w = normIntish s := by
      unfold normMaterial
      dsimp only
      rw [if_neg hc]
    rw [h1]
    unfold normMaterial
    dsimp only
    rw [normIntish_normIntish, if_neg hc]

theorem normSloc_eq_normMaterial : @normSloc = @normMaterial := rfl

/-- C7: the normalizers are idempotent — normalizing an already-normalized
value (with the same pad width) yields the same value. -/
theorem C7_normalizers_idempotent :
    (∀ s : String, normIntish (normIntish s) = normIntish s) ∧
    (∀ (s : String) (w : Nat), normMaterial (normMaterial s w) w = normMaterial s w) ∧
    (∀ (s : String) (w : Nat), normSloc (normSloc s w) w = normSloc s w) :=
  ⟨normIntish_normIntish, normMaterial_normMaterial,
    by rw [normSloc_eq_normMaterial]; exact normMaterial_normMaterial⟩

/-! ## C8: key injectivity -/

theorem pipe_append_inj {a1 a2 r1 r2 : List Char} (h1 : '|' ∉ a1) (h2 : '|' ∉ a2)
    (h : a1 ++ '|' :: r1 = a2 ++ '|' :: r2) : a1 = a2 ∧ r1 = r2 := by
  induction a1 generalizing a2 with
  | nil =>
    cases a2 with
    | nil => simpa using h
    | cons c t =>
      simp only [List.nil_append, List.cons_append, List.cons.injEq] at h
      exact absurd (h.1 ▸ List.mem_cons_self c t) h2
  | cons c t ih =>
    cases a2 with
    | nil =>
      simp only [List.nil_append, List.cons_append, List.cons.injEq] at h
      exact absurd (h.1.symm ▸ List.mem_cons_self c t) h1
    | cons c2 t2 =>
      simp only [List.cons_append, List.cons.injEq] at h
      obtain ⟨rfl, ht⟩ := h
      have := ih (fun hm => h1 (List.mem_cons_of_mem _ hm))
        (fun hm => h2 (List.mem_cons_of_mem _ hm)) ht
      exact ⟨by rw [this.1], this.2⟩

/-- C8 counterexample: over arbitrary triples `makeKey` is not injective —
a pipe inside a field shifts the boundary between components. -/
theorem C8_counterexample :
    makeKey "a|b" "c" "d" = makeKey "a" "b|c" "d" ∧ ("a|b" : String) ≠ "a" := by
  constructor
  · decide
  · decide

/-- C8 (amended): `makeKey` is injective over triples whose plant and
material components contain no pipe character (true of the normalized
numeric-or-trimmed-text fields the pipeline feeds it); identical inputs
trivially give identical keys. -/
theorem C8_key_injective_pipe_free (p1 m1 s1 p2 m2 s2 : String)
    (hp1 : '|' ∉ p1.data) (hm1 : '|' ∉ m1.data)
    (hp2 : '|' ∉ p2.data) (hm2 : '|' ∉ m2.data)
    (h : makeKey p1 m1 s1 = makeKey p2 m2 s2) :
    p1 = p2 ∧ m1 = m2 ∧ s1 = s2 := by
  have hd : p1.data ++ '|' :: (m1.data ++ '|' :: s1.data)
      = p2.data ++ '|' :: (m2.data ++ '|' :: s2.data) := by
    have h2 := congrArg String.data h
    simpa [makeKey, String.data_append] using h2
  obtain ⟨e1, e2⟩ := pipe_append_inj hp1 hp2 hd
  obtain ⟨e3, e4⟩ := pipe_append_inj hm1 hm2 e2
  exact ⟨String.ext e1, String.ext e3, String.ext e4⟩

theorem C8_witness :
    ('|' ∉ ("1000" : String).data) ∧
      (("1000" : String) = "1000" ∧ ("000123" : String) = "000123" ∧
        ("0001" : String) = "0001") :=
  ⟨by decide,
    C8_key_injective_pipe_free "1000" "000123" "0001" "1000" "000123" "0001"
      (by decide) (by decide) (by decide) (by decide) rfl⟩

/-! ## C9, C1, C10 -/

/-- C9: an empty row sequence fails the header check — the first row's
column set is empty, so the schema error lists all nine required
columns. -/
theorem C9_empty_input_schema_error (matPad slocPad : Nat) :
    cleanMb51 [] matPad slocPad = Except.error
      "MB51 missing columns: Plant, Material, Material Description, Storage Location, Movement Type, Movement Type Text, Posting Date, Time of Entry, Qty in unit of entry" := by
  rfl

/-- C1: non-positive reported quantity short-circuits the classifier to
tier "N/A" with the fixed rationale, whatever the other inputs are. -/
theorem C1_nonpositive_reported_na (row : ClassifierRow) (tol : ℚ)
    (h : row.SAP_SOH_MB5B ≤ 0) :
    expectationAndReason row tol =
      { Expectation := "N/A",
        Summary := "SAP shows 0 on-hand (no stock expected)." } := by
  unfold expectationAndReason
  rw [if_pos h]

theorem C1_witness :
    ((0 : ℚ) ≤ 0) ∧ expectationAndReason ⟨0, 5, -5, some 1, some 2, some 3, -4⟩ 37 =
      { Expectation := "N/A",
        Summary := "SAP shows 0 on-hand (no stock expected)." } :=
  ⟨le_refl 0, C1_nonpositive_reported_na _ _ (by norm_num)⟩

/-- C10: with positive reported stock and negative loss history the final
tier is never "HIGH" — the loss rule demotes HIGH/MEDIUM and the rules
after it never promote. -/
theorem C10_loss_precludes_high (row : ClassifierRow) (tol : ℚ)
    (h1 : 0 < row.SAP_SOH_MB5B) (h2 : row.Loss702_Sum < 0) :
    (expectationAndReason row tol).Expectation ≠ "HIGH" := by
  unfold expectationAndReason
  rw [if_neg (not_le.mpr h1)]
  split_ifs <;> simp_all

theorem C10_witness :
    ((0 : ℚ) < 100) ∧ ((-3 : ℚ) < 0) ∧
      (expectationAndReason ⟨100, 90, 10, none, none, none, -3⟩ 0).Expectation ≠ "HIGH" :=
  ⟨by norm_num, by norm_num,
    C10_loss_precludes_high _ _ (by norm_num) (by norm_num)⟩

/-! ## C2: the orchestrator's final sort -/

theorem posFlag_le_one (a : ResultRow) : posFlag a ≤ 1 := by
  unfold posFlag
  split_ifs <;> norm_num

theorem posFlag_one_iff (a : ResultRow) : posFlag a = 1 ↔ 0 < a.SAP_SOH_MB5B := by
  unfold posFlag
  split_ifs with h
  · simpa using h
  · simpa using h

theorem posFlag_eq_iff (a b : ResultRow) :
    posFlag a = posFlag b ↔ (0 < a.SAP_SOH_MB5B ↔ 0 < b.SAP_SOH_MB5B) := by
  unfold posFlag
  split_ifs with h1 h2 h2 <;> constructor <;> intro h <;>
    first
      | tauto
      | norm_num at h
      | (exact absurd (h.mp (by simpa using h1)) (by simpa using h2))
      | (exact absurd (h.mpr (by simpa using h2)) (by simpa using h1))

theorem resultLE_iff (a b : ResultRow) :
    resultLE a b = true ↔
      (posFlag b < posFlag a ∨ (posFlag a = posFlag b ∧
        (tierOrder a.Expectation < tierOrder b.Expectation ∨
          (tierOrder a.Expectation = tierOrder b.Expectation ∧
            b.SAP_SOH_MB5B ≤ a.SAP_SOH_MB5B)))) := by
  unfold resultLE cmpResult
  by_cases h1 : posFlag a = posFlag b
  · by_cases h2 : tierOrder a.Expectation = tierOrder b.Expectation
    · rw [if_neg (by simpa using h1), if_neg (by simpa using h2)]
      simp only [decide_eq_true_eq, sub_nonpos, h1, h2]
      constructor
      · intro h
        exact Or.inr ⟨by trivial, Or.inr ⟨by trivial, h⟩⟩
      · rintro (h | ⟨_, h | ⟨_, h⟩⟩)
        · exact absurd h (lt_irrefl _)
        · exact absurd h (lt_irrefl _)
        · exact h
    · rw [if_neg (by simpa using h1), if_pos (by simpa using h2)]
      simp only [decide_eq_true_eq, sub_nonpos, Nat.cast_le, h1]
      constructor
      · intro h
        exact Or.inr ⟨by trivial, Or.inl (lt_of_le_of_ne h h2)⟩
      · rintro (h | ⟨_, h | ⟨h, _⟩⟩)
        · exact absurd h (lt_irrefl _)
        · exact h.le
        · exact absurd h h2
  · rw [if_pos (by simpa using h1)]
    simp only [decide_eq_true_eq, sub_nonpos]
    constructor
    · intro h
      exact Or.inl (lt_of_le_of_ne h (fun he => h1 he.symm))
    · rintro (h | ⟨h, _⟩)
      · exact h.le
      · exact absurd h h1

theorem resultLE_trans (a b c : ResultRow) :
    resultLE a b → resultLE b c → resultLE a c := by
  intro hab hbc
  rw [resultLE_iff] at hab hbc ⊢
  rcases hab with h | ⟨e1, h⟩ <;> rcases hbc with g | ⟨e2, g⟩
  · exact Or.inl (lt_trans g h)
  · exact Or.inl (e2 ▸ h)
  · exact Or.inl (e1 ▸ g)
  · refine Or.inr ⟨e1.trans e2, ?_⟩
    rcases h with h | ⟨t1, h⟩ <;> rcases g with g | ⟨t2, g⟩
    · exact Or.inl (lt_trans h g)
    · exact Or.inl (t2 ▸ h)
    · exact Or.inl (t1 ▸ g)
    · exact Or.inr ⟨t1.trans t2, g.trans h⟩

theorem resultLE_total (a b : ResultRow) : resultLE a b || resultLE b a := by
  rw [Bool.or_eq_true, resultLE_iff, resultLE_iff]
  rcases lt_trichotomy (posFlag a) (posFlag b) with h | h | h
  · exact Or.inr (Or.inl h)
  · rcases Nat.lt_trichotomy (tierOrder a.Expectation) (tierOrder b.Expectation) with t | t | t
    · exact Or.inl (Or.inr ⟨h, Or.inl t⟩)
    · rcases le_total b.SAP_SOH_MB5B a.SAP_SOH_MB5B with q | q
      · exact Or.inl (Or.inr ⟨h, Or.inr ⟨t, q⟩⟩)
      · exact Or.inr (Or.inr ⟨h.symm, Or.inr ⟨t.symm, q⟩⟩)
    · exact Or.inr (Or.inr ⟨h.symm, Or.inl t⟩)
  · exact Or.inl (Or.inl h)

theorem resultLE_of_cmp_zero {a b : ResultRow} (h : cmpResult a b = 0) :
    resultLE a b = true := by
  unfold resultLE
  rw [h]
  norm_num

/-- C2: the final sort is a permutation of the input; it is sorted so that
rows with positive reported quantity come first, tiers rank
LOW < MEDIUM < HIGH < N/A ascending within each group, and reported
quantity descends within equal tier; and rows that compare equal keep
their input order (stability). -/
theorem C2_final_sort (rows : List ResultRow) :
    (sortResultRows rows).Perm rows ∧
    (sortResultRows rows).Pairwise (fun a b =>
      (0 < b.SAP_SOH_MB5B → 0 < a.SAP_SOH_MB5B) ∧
      ((0 < a.SAP_SOH_MB5B ↔ 0 < b.SAP_SOH_MB5B) →
        tierOrder a.Expectation ≤ tierOrder b.Expectation) ∧
      ((0 < a.SAP_SOH_MB5B ↔ 0 < b.SAP_SOH_MB5B) →
        tierOrder a.Expectation = tierOrder b.Expectation →
        b.SAP_SOH_MB5B ≤ a.SAP_SOH_MB5B)) ∧
    (∀ p : ResultRow → Bool,
      (∀ a b, p a = true → p b = true → cmpResult a b = 0) →
      (sortResultRows rows).filter p = rows.filter p) := by
  refine ⟨List.mergeSort_perm rows resultLE, ?_, ?_⟩
  · have hs := List.sorted_mergeSort resultLE_trans resultLE_total rows
    refine hs.imp ?_
    intro a b hab
    rw [resultLE_iff] at hab
    refine ⟨?_, ?_, ?_⟩
    · intro hb
      rcases hab with h | ⟨e, _⟩
      · have h1 : posFlag b = 1 := (posFlag_one_iff b).mpr hb
        have := lt_of_lt_of_le (h1 ▸ h) (posFlag_le_one a)
        exact absurd this (lt_irrefl _)
      · exact ((posFlag_eq_iff a b).mp e).mpr hb
    · intro hiff
      have e : posFlag a = posFlag b := (posFlag_eq_iff a b).mpr hiff
      rcases hab with h | ⟨_, h2⟩
      · rw [e] at h
        exact absurd h (lt_irrefl _)
      · rcases h2 with h | ⟨t, _⟩
        · exact h.le
        · exact t.le
    · intro hiff ht
      have e : posFlag a = posFlag b := (posFlag_eq_iff a b).mpr hiff
      rcases hab with h | ⟨_, h2⟩
      · rw [e] at h
        exact absurd h (lt_irrefl _)
      · rcases h2 with h | ⟨_, q⟩
        · omega
        · exact q
  · intro p hp
    have hpair : (rows.filter p).Pairwise (fun a b => resultLE a b = true) := by
      rw [List.pairwise_iff_forall_sublist]
      intro a b hsub
      have ha : p a = true :=
        (List.mem_filter.mp (hsub.subset (by simp))).2
      have hb : p b = true :=
        (List.mem_filter.mp (hsub.subset (by simp : b ∈ [a, b]))).2
      exact resultLE_of_cmp_zero (hp a b ha hb)
    have hsub : List.Sublist (rows.filter p) (sortResultRows rows) :=
      List.sublist_mergeSort resultLE_trans resultLE_total hpair (List.filter_sublist rows)
    have hself : (rows.filter p).filter p = rows.filter p :=
      List.filter_eq_self.mpr fun a ha => (List.mem_filter.mp ha).2
    have hsub2 : List.Sublist (rows.filter p) ((sortResultRows rows).filter p) := by
      rw [← hself]
      exact hsub.filter p
    have hperm : ((sortResultRows rows).filter p).Perm (rows.filter p) :=
      (List.mergeSort_perm rows resultLE).filter p
    exact (hsub2.eq_of_length hperm.length_eq.symm).symm

theorem C2_witness :
    ((fun r : ResultRow => r.Expectation == "LOW" && decide (r.SAP_SOH_MB5B = 3)) =
        (fun r : ResultRow => r.Expectation == "LOW" && decide (r.SAP_SOH_MB5B = 3))) ∧
      (sortResultRows
          [⟨"a", 5, "HIGH", ""⟩, ⟨"b", 0, "LOW", ""⟩, ⟨"c", 3, "LOW", ""⟩,
            ⟨"d", 7, "LOW", ""⟩, ⟨"e", -2, "N/A", ""⟩]).filter
          (fun r => r.Expectation == "LOW" && decide (r.SAP_SOH_MB5B = 3)) =
        ([⟨"a", 5, "HIGH", ""⟩, ⟨"b", 0, "LOW", ""⟩, ⟨"c", 3, "LOW", ""⟩,
            ⟨"d", 7, "LOW", ""⟩, ⟨"e", -2, "N/A", ""⟩] : List ResultRow).filter
          (fun r => r.Expectation == "LOW" && decide (r.SAP_SOH_MB5B = 3)) := by
  refine ⟨rfl, (C2_final_sort _).2.2 _ ?_⟩
  intro a b ha hb
  simp only [Bool.and_eq_true, beq_iff_eq, decide_eq_true_eq] at ha hb
  unfold cmpResult posFlag tierOrder
  rw [ha.1, ha.2, hb.1, hb.2]
  norm_num

/-! ## C3: last-event extraction -/

/-- The candidate records of the last-event scan for one key: matching
key, movement-type code in the category set, non-null timestamp. -/
def candRows (l : List CleanRow) (mvts : List String) (k : String) : List CleanRow :=
  l.filter (fun r => r.Key == k && mvts.contains r.MovementType && r.PostDateTime.isSome)

theorem lastEventStep_ne (mvts : List String) (last : String → Option CleanRow)
    (x : CleanRow) (k : String) (h : ¬ k = x.Key) :
    lastEventStep mvts last x k = last k := by
  unfold lastEventStep
  by_cases hb : (!mvts.contains x.MovementType) = true
  · rw [if_pos hb]
  · rw [if_neg hb]
    cases hpd : x.PostDateTime with
    | none => rfl
    | some t =>
      cases hcur : last x.Key with
      | none => simp [h]
      | some cur =>
        dsimp only
        by_cases hlt : cur.PostDateTime.getD 0 < t
        · rw [if_pos hlt]
          simp [h]
        · rw [if_neg hlt]

theorem lastEventRow_spec (mvts : List String) (k : String) (l : List CleanRow) :
    (lastEventRow l mvts k = none → candRows l mvts k = []) ∧
    (∀ r, lastEventRow l mvts k = some r →
      ∃ A B, candRows l mvts k = A ++ r :: B ∧
        (∀ a ∈ A, a.PostDateTime.getD 0 < r.PostDateTime.getD 0) ∧
        (∀ b ∈ B, b.PostDateTime.getD 0 ≤ r.PostDateTime.getD 0)) := by
  induction l using List.reverseRecOn with
  | nil =>
    constructor
    · intro
      rfl
    · intro r hr
      exact absurd hr (by simp [lastEventRow])
  | append_singleton xs x ih =>
    have hfold : lastEventRow (xs ++ [x]) mvts k
        = lastEventStep mvts (lastEventRow xs mvts) x k := by
      unfold lastEventRow
      rw [List.foldl_append]
      rfl
    have hcand : candRows (xs ++ [x]) mvts k
        = candRows xs mvts k ++
          (if (x.Key == k && mvts.contains x.MovementType && x.PostDateTime.isSome) = true
            then [x] else []) := by
      unfold candRows
      rw [List.filter_append]
      congr 1
      by_cases hx : (x.Key == k && mvts.contains x.MovementType && x.PostDateTime.isSome) = true
      · rw [if_pos hx]
        simp only [List.filter_cons, List.filter_nil, hx, if_true]
      · rw [if_neg hx]
        have hx2 : (x.Key == k && mvts.contains x.MovementType && x.PostDateTime.isSome) = false := by
          simpa using hx
        simp only [List.filter_cons, List.filter_nil, hx2, Bool.false_eq_true, if_false]
    by_cases hkey : k = x.Key
    · subst hkey
      cases hb : mvts.contains x.MovementType
      · have hstep : lastEventRow (xs ++ [x]) mvts x.Key = lastEventRow xs mvts x.Key := by
          rw [hfold]
          unfold lastEventStep
          rw [hb]
          rfl
        have hcand2 : candRows (xs ++ [x]) mvts x.Key = candRows xs mvts x.Key := by
          have hnm : x.MovementType ∉ mvts := by simpa using hb
          rw [hcand, if_neg (by simp [hnm])]
          simp
        rw [hstep, hcand2]
        exact ih
      · cases hpd : x.PostDateTime with
        | none =>
          have hstep : lastEventRow (xs ++ [x]) mvts x.Key = lastEventRow xs mvts x.Key := by
            rw [hfold]
            unfold lastEventStep
            rw [hb, hpd]
            rfl
          have hcand2 : candRows (xs ++ [x]) mvts x.Key = candRows xs mvts x.Key := by
            rw [hcand, if_neg (by simp [hpd])]
            simp
          rw [hstep, hcand2]
          exact ih
        | some t =>
          have hmem : x.MovementType ∈ mvts := by simpa using hb
          have hcand2 : candRows (xs ++ [x]) mvts x.Key = candRows xs mvts x.Key ++ [x] := by
            rw [hcand, if_pos (by simp [hmem, hpd])]
          cases hcur : lastEventRow xs mvts x.Key with
          | none =>
            have hstep : lastEventRow (xs ++ [x]) mvts x.Key = some x := by
              rw [hfold]
              simp [lastEventStep, hmem, hpd, hcur]
            have hnil : candRows xs mvts x.Key = [] := ih.1 hcur
            constructor
            · intro hc
              rw [hstep] at hc
              exact absurd hc (by simp)
            · intro r hr
              rw [hstep] at hr
              obtain rfl : x = r := by simpa using hr
              refine ⟨[], [], ?_, by simp, by simp⟩
              rw [hcand2, hnil]
          | some cur =>
            obtain ⟨A, B, hAB, hA, hB⟩ := ih.2 cur hcur
            by_cases hlt : cur.PostDateTime.getD 0 < t
            · have hstep : lastEventRow (xs ++ [x]) mvts x.Key = some x := by
                rw [hfold]
                simp [lastEventStep, hmem, hpd, hcur, hlt]
              constructor
              · intro hc
                rw [hstep] at hc
                exact absurd hc (by simp)
              · intro r hr
                rw [hstep] at hr
                obtain rfl : x = r := by simpa using hr
                refine ⟨A ++ cur :: B, [], ?_, ?_, by simp⟩
                · rw [hcand2, hAB]
                · have hxt : x.PostDateTime.getD 0 = t := by
                    rw [hpd]
                    rfl
                  intro a ha
                  rw [hxt]
                  rcases List.mem_append.mp ha with ha2 | ha2
                  · exact lt_trans (hA a ha2) hlt
                  · rcases List.mem_cons.mp ha2 with rfl | ha3
                    · exact hlt
                    · exact lt_of_le_of_lt (hB a ha3) hlt
            · have hstep : lastEventRow (xs ++ [x]) mvts x.Key = some cur := by
                rw [hfold]
                simp [lastEventStep, hmem, hpd, hcur, hlt]
              constructor
              · intro hc
                rw [hstep] at hc
                exact absurd hc (by simp)
              · intro r hr
                rw [hstep] at hr
                obtain rfl : cur = r := by simpa using hr
                refine ⟨A, B ++ [x], ?_, hA, ?_⟩
                · rw [hcand2, hAB]
                  simp
                · intro b hbm
                  rcases List.mem_append.mp hbm with hb2 | hb2
                  · exact hB b hb2
                  · obtain rfl : b = x := by simpa using hb2
                    have hxt : b.PostDateTime.getD 0 = t := by
                      rw [hpd]
                      rfl
                    rw [hxt]
                    exact le_of_not_lt hlt
    · have hstep : lastEventRow (xs ++ [x]) mvts k = lastEventRow xs mvts k := by
        rw [hfold]
        exact lastEventStep_ne mvts _ x k hkey
      have hcand2 : candRows (xs ++ [x]) mvts k = candRows xs mvts k := by
        rw [hcand]
        have : (x.Key == k) = false := by
          simp only [beq_eq_false_iff_ne, ne_eq]
          intro he
          exact hkey he.symm
        simp [this]
      rw [hstep, hcand2]
      exact ih

/-- C3: for every cleaned log, category set and key, `lastEvent` returns
the fields of the candidate (matching key, matching movement type,
non-null timestamp) whose timestamp is maximal, with the first-seen
candidate winning ties (everything before it in the candidate list is
strictly earlier); a key with no candidate is absent (`none`), not an
error. -/
theorem C3_last_event (l : List CleanRow) (mvts : List String) (k : String) :
    (candRows l mvts k = [] → lastEvent l mvts k = none) ∧
    (candRows l mvts k ≠ [] →
      ∃ r A B, candRows l mvts k = A ++ r :: B ∧
        lastEvent l mvts k =
          some ⟨r.PostDateTime, r.Qty, r.MovementType, r.MovementTypeText⟩ ∧
        (∀ c ∈ candRows l mvts k, c.PostDateTime.getD 0 ≤ r.PostDateTime.getD 0) ∧
        (∀ a ∈ A, a.PostDateTime.getD 0 < r.PostDateTime.getD 0)) := by
  have hspec := lastEventRow_spec mvts k l
  constructor
  · intro hc
    cases hrow : lastEventRow l mvts k with
    | none => simp [lastEvent, hrow]
    | some r =>
      obtain ⟨A, B, hAB, _, _⟩ := hspec.2 r hrow
      rw [hc] at hAB
      exact absurd hAB.symm (by simp)
  · intro hne
    cases hrow : lastEventRow l mvts k with
    | none => exact absurd (hspec.1 hrow) hne
    | some r =>
      obtain ⟨A, B, hAB, hA, hB⟩ := hspec.2 r hrow
      refine ⟨r, A, B, hAB, by simp [lastEvent, hrow], ?_, hA⟩
      intro c hc
      rw [hAB] at hc
      rcases List.mem_append.mp hc with h2 | h2
      · exact (hA c h2).le
      · rcases List.mem_cons.mp h2 with rfl | h3
        · exact le_refl _
        · exact hB c h3

/-- Test fixture row for the witnesses. -/
def mkRow (k mvt : String) (t : Option Int) (q : ℚ) : CleanRow :=
  ⟨"p", "m", "", "s", mvt, "txt", t, .str "", t, q, k⟩

theorem C3_witness :
    candRows
        [mkRow "K" "701" (some 5) 1, mkRow "K" "702" (some 9) 2,
          mkRow "K" "701" (some 9) 3, mkRow "K" "701" none 4,
          mkRow "J" "701" (some 99) 5] COUNT_MVTS "K" ≠ [] ∧
      (∃ r A B,
        candRows
            [mkRow "K" "701" (some 5) 1, mkRow "K" "702" (some 9) 2,
              mkRow "K" "701" (some 9) 3, mkRow "K" "701" none 4,
              mkRow "J" "701" (some 99) 5] COUNT_MVTS "K" = A ++ r :: B ∧
        lastEvent
            [mkRow "K" "701" (some 5) 1, mkRow "K" "702" (some 9) 2,
              mkRow "K" "701" (some 9) 3, mkRow "K" "701" none 4,
              mkRow "J" "701" (some 99) 5] COUNT_MVTS "K" =
          some ⟨r.PostDateTime, r.Qty, r.MovementType, r.MovementTypeText⟩ ∧
        (∀ c ∈ candRows
            [mkRow "K" "701" (some 5) 1, mkRow "K" "702" (some 9) 2,
              mkRow "K" "701" (some 9) 3, mkRow "K" "701" none 4,
              mkRow "J" "701" (some 99) 5] COUNT_MVTS "K",
          c.PostDateTime.getD 0 ≤ r.PostDateTime.getD 0) ∧
        (∀ a ∈ A, a.PostDateTime.getD 0 < r.PostDateTime.getD 0)) :=
  ⟨by decide, (C3_last_event _ COUNT_MVTS "K").2 (by decide)⟩

/-! ## C4: header validation of the transaction cleaner -/

/-- The trimmed column names of the first row (the header view the
cleaner validates). -/
def hdrCols (rows : List RawRow) : List String :=
  (rows.headD []).map (fun p => jsTrim p.1)

/-- C4: if any required column is absent from the trimmed header, the
cleaner fails with one schema error whose message lists exactly the
missing required columns, collected in one pass, and no cleaned records
are produced; if all nine are present, no schema error is raised. -/
theorem C4_schema_error_lists_missing (rows : List RawRow) (matPad slocPad : Nat) :
    (∀ c ∈ MB51_REQUIRED,
      (c ∈ MB51_REQUIRED.filter (fun c => !(hdrCols rows).contains c) ↔
        (hdrCols rows).contains c = false)) ∧
    ((∃ c ∈ MB51_REQUIRED, (hdrCols rows).contains c = false) →
      cleanMb51 rows matPad slocPad = Except.error
        ("MB51 missing columns: " ++ String.intercalate ", "
          (MB51_REQUIRED.filter (fun c => !(hdrCols rows).contains c)))) ∧
    ((∀ c ∈ MB51_REQUIRED, (hdrCols rows).contains c = true) →
      ∃ out, cleanMb51 rows matPad slocPad = Except.ok out) := by
  refine ⟨?_, ?_, ?_⟩
  · intro c hc
    rw [List.mem_filter]
    constructor
    · intro h
      have := h.2
      cases hcc : (hdrCols rows).contains c
      · rfl
      · rw [hcc] at this
        exact absurd this (by decide)
    · intro h
      exact ⟨hc, by rw [h]; rfl⟩
  · rintro ⟨c, hc, habs⟩
    have hmem : c ∈ MB51_REQUIRED.filter (fun c => !(hdrCols rows).contains c) :=
      List.mem_filter.mpr ⟨hc, by rw [habs]; rfl⟩
    have hne : MB51_REQUIRED.filter (fun c => !(hdrCols rows).contains c) ≠ [] :=
      List.ne_nil_of_mem hmem
    have hie : (MB51_REQUIRED.filter (fun c => !(hdrCols rows).contains c)).isEmpty = false := by
      cases h2 : (MB51_REQUIRED.filter (fun c => !(hdrCols rows).contains c)).isEmpty
      · rfl
      · exact absurd (List.isEmpty_iff.mp h2) hne
    unfold cleanMb51
    dsimp only
    rw [if_pos (by rw [show ((rows.headD []).map (fun p => jsTrim p.1)) = hdrCols rows from rfl, hie]; rfl)]
    rfl
  · intro hall
    have hnil : MB51_REQUIRED.filter (fun c => !(hdrCols rows).contains c) = [] :=
      List.filter_eq_nil_iff.mpr fun a ha => by rw [hall a ha]; decide
    have hie2 : (MB51_REQUIRED.filter (fun c => !(hdrCols rows).contains c)).isEmpty = true :=
      List.isEmpty_iff.mpr hnil
    unfold cleanMb51
    dsimp only
    rw [if_neg (by rw [show ((rows.headD []).map (fun p => jsTrim p.1)) = hdrCols rows from rfl, hie2]; decide)]
    exact ⟨_, rfl⟩

theorem C4_witness :
    cleanMb51 [[("Plant", Cell.str "1000")]] 0 4 = Except.error
        ("MB51 missing columns: " ++ String.intercalate ", "
          (MB51_REQUIRED.filter
            (fun c => !(hdrCols [[("Plant", Cell.str "1000")]]).contains c))) ∧
      ∃ out,
        cleanMb51
            [[("Plant", Cell.str "1000"), ("Material", Cell.str "7"),
              ("Material Description", Cell.str "w"), ("Storage Location", Cell.str "12"),
              ("Movement Type", Cell.str "701"), ("Movement Type Text", Cell.str "t"),
              ("Posting Date", Cell.num 45000), ("Time of Entry", Cell.str "07:30"),
              ("Qty in unit of entry", Cell.str "5")]] 0 4 = Except.ok out :=
  ⟨(C4_schema_error_lists_missing [[("Plant", Cell.str "1000")]] 0 4).2.1
      ⟨"Material", by decide, by decide⟩,
    (C4_schema_error_lists_missing _ 0 4).2.2 (by decide)⟩

/-! ## C5: storage-location inference -/

/-- Modelled from the spec (claim C5's wording): the candidate scan reads
"the second cell of the subsequent rows" after the header row, i.e. from
`r+1` onward; the source starts at `r+2`. -/
def slocCandidatesSpec (block : List (List String)) (slocPad : Nat) (r : Nat) :
    List String :=
  ((block.drop (r + 1)).takeWhile
      (fun row => !strStartsWith (jsTrim (cellAtD row 0)) "Plant")).filterMap
    (fun row =>
      match row.get? 1 with
      | some v => if jsTrim v != "" then some (normSloc v slocPad) else none
      | none => none)

/-- The inference as claim C5 states it, differing from the source only in
the start row of the candidate scan. -/
def inferSlocSpec (block : List (List String)) (slocPad : Nat) : String :=
  match slocHeaderIdx block with
  | none => ""
  | some r =>
    let s := firstDedup (slocCandidatesSpec block slocPad r)
    if s.length == 1 then s.headD ""
    else if s.length > 1 then "MULTI"
    else ""

/-- C5 counterexample: with a candidate value in the row directly under
the header, the source skips it (scan starts two rows below the header),
so the code returns that single later value where the claim's reading
("the subsequent rows") collects two distinct values and would return
"MULTI". -/
theorem C5_counterexample :
    inferSloc [["hdr", "Loca", "MvT"], ["", "A", ""], ["", "B", ""]] 4 = "B" ∧
      inferSlocSpec [["hdr", "Loca", "MvT"], ["", "A", ""], ["", "B", ""]] 4 = "MULTI" ∧
      ("B" : String) ≠ "MULTI" := by
  refine ⟨by decide, by decide, by decide⟩

theorem mem_firstDedupAux (a : String) (l : List String) :
    ∀ seen, a ∈ firstDedupAux seen l ↔ (a ∈ l ∧ a ∉ seen) := by
  induction l with
  | nil => simp [firstDedupAux]
  | cons x xs ih =>
    intro seen
    unfold firstDedupAux
    by_cases hx : seen.contains x = true
    · rw [if_pos hx]
      have hxs : x ∈ seen := by simpa using hx
      rw [ih seen]
      constructor
      · rintro ⟨h1, h2⟩
        exact ⟨List.mem_cons_of_mem _ h1, h2⟩
      · rintro ⟨h1, h2⟩
        rcases List.mem_cons.mp h1 with rfl | h3
        · exact absurd hxs h2
        · exact ⟨h3, h2⟩
    · rw [if_neg hx]
      have hxs : x ∉ seen := by simpa using hx
      constructor
      · intro h
        rcases List.mem_cons.mp h with rfl | h3
        · exact ⟨List.mem_cons_self _ _, hxs⟩
        · obtain ⟨h4, h5⟩ := (ih (x :: seen)).mp h3
          exact ⟨List.mem_cons_of_mem _ h4,
            fun hs => h5 (List.mem_cons_of_mem _ hs)⟩
      · rintro ⟨h1, h2⟩
        rcases List.mem_cons.mp h1 with rfl | h3
        · exact List.mem_cons_self _ _
        · by_cases hax : a = x
          · subst hax
            exact List.mem_cons_self _ _
          · refine List.mem_cons_of_mem _ ((ih (x :: seen)).mpr ⟨h3, ?_⟩)
            intro hs
            rcases List.mem_cons.mp hs with h6 | h6
            · exact hax h6
            · exact h2 h6

theorem mem_firstDedup (a : String) (l : List String) :
    a ∈ firstDedup l ↔ a ∈ l := by
  unfold firstDedup
  rw [mem_firstDedupAux]
  simp

theorem firstDedupAux_eq_nil (l : List String) :
    ∀ seen, (∀ x ∈ l, x ∈ seen) → firstDedupAux seen l = [] := by
  induction l with
  | nil =>
    intro seen _
    rfl
  | cons x xs ih =>
    intro seen h
    unfold firstDedupAux
    rw [if_pos (by simpa using h x (List.mem_cons_self _ _))]
    exact ih _ fun y hy => h y (List.mem_cons_of_mem _ hy)

theorem firstDedup_all_eq (v : String) (l : List String) (hv : v ∈ l)
    (hall : ∀ w ∈ l, w = v) : firstDedup l = [v] := by
  cases l with
  | nil => exact absurd hv (by simp)
  | cons x xs =>
    have hx : x = v := hall x (List.mem_cons_self _ _)
    subst hx
    unfold firstDedup firstDedupAux
    rw [if_neg (by simp)]
    rw [firstDedupAux_eq_nil xs]
    intro y hy
    rw [hall y (List.mem_cons_of_mem _ hy)]
    exact List.mem_cons_self _ _

theorem two_mem_length_ge_two {l : List String} {v w : String}
    (hv : v ∈ l) (hw : w ∈ l) (hne : v ≠ w) : 2 ≤ l.length := by
  cases l with
  | nil => simp at hv
  | cons a xs =>
    cases xs with
    | nil =>
      simp only [List.mem_singleton] at hv hw
      exact absurd (hv.trans hw.symm) hne
    | cons b ys =>
      simp only [List.length_cons]
      omega

theorem find?_range_first {p : Nat → Bool} {n r : Nat}
    (h : (List.range n).find? p = some r) : p r = true ∧ ∀ j < r, p j = false := by
  induction n with
  | zero => simp [List.range_zero] at h
  | succ n ih =>
    rw [List.range_succ, List.find?_append] at h
    cases hf : (List.range n).find? p with
    | some r2 =>
      rw [hf] at h
      obtain rfl : r2 = r := by
        cases hfn : List.find? p [n] <;> rw [hfn] at h <;> simpa [Option.or] using h
      exact ih hf
    | none =>
      rw [hf] at h
      simp only [Option.none_or] at h
      have h2 := List.find?_some h
      have h3 : r = n := by
        simp only [List.find?] at h
        split at h
        · exact (by simpa using h : n = r).symm
        · simp at h
      subst h3
      refine ⟨h2, ?_⟩
      intro j hj
      have := List.find?_eq_none.mp hf j (List.mem_range.mpr hj)
      simpa using this

/-- C5 (amended): the inference locates the first header row with second
cell "Loca" and third cell "MvT" (trimmed); it then scans the second cell
of the rows starting two rows past the header (the row immediately after
the header is skipped), stopping at the next "Plant" row or the end of
the block; the result is the single distinct normalized non-empty value
when exactly one exists, "MULTI" when more than one, and "" when none
(or when no header row exists). -/
theorem C5_sloc_inference (block : List (List String)) (slocPad : Nat) :
    (slocHeaderIdx block = none → inferSloc block slocPad = "") ∧
    (∀ r, slocHeaderIdx block = some r →
      ((jsTrim (cellAtD (block.getD r []) 1) = "Loca" ∧
          jsTrim (cellAtD (block.getD r []) 2) = "MvT") ∧
        (∀ j < r, ¬(jsTrim (cellAtD (block.getD j []) 1) = "Loca" ∧
          jsTrim (cellAtD (block.getD j []) 2) = "MvT")) ∧
        (slocCandidates block slocPad r = [] → inferSloc block slocPad = "") ∧
        (∀ v ∈ slocCandidates block slocPad r,
          (∀ w ∈ slocCandidates block slocPad r, w = v) →
          inferSloc block slocPad = v) ∧
        ((∃ v ∈ slocCandidates block slocPad r,
            ∃ w ∈ slocCandidates block slocPad r, v ≠ w) →
          inferSloc block slocPad = "MULTI"))) := by
  constructor
  · intro h
    simp [inferSloc, h]
  · intro r hr
    have hfind := @find?_range_first (fun r =>
      jsTrim (cellAtD (block.getD r []) 1) == "Loca"
        && jsTrim (cellAtD (block.getD r []) 2) == "MvT") block.length r
      (by simpa [slocHeaderIdx] using hr)
    refine ⟨?_, ?_, ?_, ?_, ?_⟩
    · have := hfind.1
      simp only [Bool.and_eq_true, beq_iff_eq] at this
      exact this
    · intro j hj hcon
      have := hfind.2 j hj
      simp only [Bool.and_eq_true, beq_iff_eq] at this
      rw [hcon.1, hcon.2] at this
      simp at this
    · intro hc
      simp [inferSloc, hr, hc, firstDedup, firstDedupAux]
    · intro v hv hall
      have hdd : firstDedup (slocCandidates block slocPad r) = [v] :=
        firstDedup_all_eq v _ hv hall
      simp [inferSloc, hr, hdd]
    · rintro ⟨v, hv, w, hw, hne⟩
      have hlen : 2 ≤ (firstDedup (slocCandidates block slocPad r)).length :=
        two_mem_length_ge_two ((mem_firstDedup v _).mpr hv)
          ((mem_firstDedup w _).mpr hw) hne
      unfold inferSloc
      rw [hr]
      dsimp only
      rw [if_neg (by simp only [beq_iff_eq]; omega), if_pos (by omega)]

theorem C5_witness :
    slocHeaderIdx [["hdr", "Loca", "MvT"], ["u"], ["", "0001", ""], ["", "0001", ""]]
        = some 0 ∧
      inferSloc [["hdr", "Loca", "MvT"], ["u"], ["", "0001", ""], ["", "0001", ""]] 4
        = "0001" :=
  ⟨by decide,
    ((C5_sloc_inference
        [["hdr", "Loca", "MvT"], ["u"], ["", "0001", ""], ["", "0001", ""]] 4).2 0
      (by decide)).2.2.2.1 "0001" (by decide) (by decide)⟩

/-! ## C6: closing-stock extraction -/

theorem ratOfDigits_eval (ds : List Char) (n : Nat)
    (h : ds.foldl (fun n c => 10 * n + (c.toNat - 48)) 0 = n) :
    ratOfDigits ds = (n : ℚ) := by
  unfold ratOfDigits
  rw [h]

/-- C6 counterexample: a closing-stock line whose numeric value carries a
bare trailing minus (no unit token after it) parses as the positive
value — the regex's trailing word boundary rejects the minus — where the
claim says the minus negates. -/
theorem C6_counterexample :
    parseQtyLine stockMarker "Stock on 31.12.9999        100.000-" = some 100 ∧
      (100 : ℚ) ≠ -100 := by
  constructor
  · have h1 : parseQtyLine stockMarker "Stock on 31.12.9999        100.000-" =
        some (ratOfDigits ['1', '0', '0'] +
          ratOfDigits ['0', '0', '0'] / (10 : ℚ) ^ (3 : Nat)) := rfl
    rw [h1, ratOfDigits_eval _ 100 (by decide), ratOfDigits_eval _ 0 (by decide)]
    norm_num
  · norm_num

theorem scanMaterial_closeQty (st : BlockScanState) (line : String) :
    (scanMaterial st line).closeQty = st.closeQty := by
  unfold scanMaterial
  split
  · split <;> rfl
  · rfl

theorem scanDesc_closeQty (st : BlockScanState) (line : String) :
    (scanDesc st line).closeQty = st.closeQty := by
  unfold scanDesc
  split
  · split <;> rfl
  · rfl

theorem blockScanStep_closeQty (st : BlockScanState) (line : String) :
    (blockScanStep st line).closeQty =
      match st.closeQty with
      | some q => some q
      | none => parseQtyLine stockMarker line := by
  unfold blockScanStep scanClose
  rw [scanDesc_closeQty, scanMaterial_closeQty]
  cases h : st.closeQty with
  | some q =>
    rw [if_neg (by simp [h])]
    rw [scanDesc_closeQty, scanMaterial_closeQty, h]
  | none =>
    rw [if_pos (by simp [h])]
    cases hp : parseQtyLine stockMarker line with
    | some q => rfl
    | none =>
      rw [scanDesc_closeQty, scanMaterial_closeQty, h]

theorem foldl_blockScanStep_closeQty (ls : List String) :
    ∀ st : BlockScanState,
      (ls.foldl blockScanStep st).closeQty =
        match st.closeQty with
        | some q => some q
        | none => ls.findSome? (parseQtyLine stockMarker) := by
  induction ls with
  | nil =>
    intro st
    cases h : st.closeQty <;> simp [h]
  | cons l ls ih =>
    intro st
    rw [List.foldl_cons, ih, blockScanStep_closeQty]
    cases h : st.closeQty with
    | some q => rfl
    | none =>
      rw [List.findSome?_cons]
      cases hp : parseQtyLine stockMarker l <;> rfl

theorem blockScan_closeQty (block : List (List String)) :
    (blockScan block).closeQty =
      ((linesZero block).take 140).findSome? (parseQtyLine stockMarker) := by
  unfold blockScan
  rw [foldl_blockScanStep_closeQty]

theorem findSome?_eq_some_split {α β : Type} (f : α → Option β) (l : List α) (b : β)
    (h : l.findSome? f = some b) :
    ∃ pre x post, l = pre ++ x :: post ∧ (∀ y ∈ pre, f y = none) ∧ f x = some b := by
  induction l with
  | nil => simp at h
  | cons a l ih =>
    rw [List.findSome?_cons] at h
    cases hf : f a with
    | some c =>
      rw [hf] at h
      obtain rfl : c = b := by simpa using h
      exact ⟨[], a, l, rfl, by simp, hf⟩
    | none =>
      rw [hf] at h
      obtain ⟨pre, x, post, hl, hpre, hx⟩ := ih h
      refine ⟨a :: pre, x, post, by rw [hl]; rfl, ?_, hx⟩
      intro y hy
      rcases List.mem_cons.mp hy with rfl | hy2
      · exact hf
      · exact hpre y hy2

theorem parseQtyLine_not_marker (s : String)
    (h : strStartsWith (jsTrim s) stockMarker = false) :
    parseQtyLine stockMarker s = none := by
  unfold parseQtyLine
  dsimp only
  rw [h]
  rfl

theorem wordChar_of_isDigit {c : Char} (h : c.isDigit = true) : wordChar c = true := by
  unfold wordChar
  simp [Char.isAlphanum, h]

theorem getLastD_isDigit (ds : List Char) (hne : ds ≠ [])
    (hd : ∀ c ∈ ds, c.isDigit = true) : (ds.getLastD '0').isDigit = true := by
  rw [List.getLastD_eq_getLast?, List.getLast?_eq_getLast ds hne]
  exact hd _ (List.getLast_mem hne)

theorem contAfterNum_nil (pc : Char) (h : pc.isDigit = true) :
    contAfterNum pc [] = some false := by
  have hw := wordChar_of_isDigit h
  simp [contAfterNum, spaceSplits, unitTailOk, boundary, stripPfxCI, qtyUnits, hw]

theorem contAfterNum_bare_minus (pc : Char) (h : pc.isDigit = true) :
    contAfterNum pc ['-'] = some false := by
  have hw := wordChar_of_isDigit h
  simp [contAfterNum, spaceSplits, unitTailOk, boundary, stripPfxCI, qtyUnits, wsp, hw]
  decide

theorem fracTry_none (ds rest : List Char) (h : ∀ r, rest ≠ '.' :: r) :
    fracTry ds rest = none := by
  unfold fracTry
  split
  · next r => exact absurd rfl (h r)
  · rfl

theorem takeWhile_digits_append (ds rest : List Char)
    (hdig : ∀ c ∈ ds, c.isDigit = true)
    (hhead : ∀ c t, rest = c :: t → c.isDigit = false) :
    (ds ++ rest).takeWhile Char.isDigit = ds := by
  rw [List.takeWhile_append_of_pos hdig]
  cases rest with
  | nil => simp
  | cons c t =>
    rw [List.takeWhile_cons_of_neg (by simp [hhead c t rfl])]
    simp

theorem dropWhile_digits_append (ds rest : List Char)
    (hdig : ∀ c ∈ ds, c.isDigit = true)
    (hhead : ∀ c t, rest = c :: t → c.isDigit = false) :
    (ds ++ rest).dropWhile Char.isDigit = rest := by
  rw [List.dropWhile_append_of_pos hdig]
  cases rest with
  | nil => rfl
  | cons c t => rw [List.dropWhile_cons_of_neg (by simp [hhead c t rfl])]

theorem tryNumAt_digits (ds rest : List Char) (neg : Bool)
    (hne : ds ≠ []) (hdig : ∀ c ∈ ds, c.isDigit = true)
    (hhead : ∀ c t, rest = c :: t → (c.isDigit = false ∧ c ≠ '.'))
    (hcont : contAfterNum (ds.getLastD '0') rest = some neg) :
    tryNumAt (ds ++ rest) = some (ratOfDigits ds, neg) := by
  unfold tryNumAt
  dsimp only
  rw [takeWhile_digits_append ds rest hdig (fun c t h => (hhead c t h).1),
    dropWhile_digits_append ds rest hdig (fun c t h => (hhead c t h).1)]
  rw [if_neg (by simp [hne])]
  rw [fracTry_none ds rest ?hdot]
  case hdot =>
    intro r heq
    exact (hhead '.' r heq).2 rfl
  rw [hcont]

theorem firstQtyMatch_of_tryNumAt (ds rest : List Char) (v : ℚ × Bool)
    (hne : ds ≠ []) (hdig : ∀ c ∈ ds, c.isDigit = true)
    (h : tryNumAt (ds ++ rest) = some v) :
    firstQtyMatch (ds ++ rest) = some v := by
  cases ds with
  | nil => exact absurd rfl hne
  | cons d0 ds2 =>
    rw [List.cons_append]
    unfold firstQtyMatch
    rw [if_pos (hdig d0 (List.mem_cons_self _ _))]
    rw [← List.cons_append, h]

theorem trimChars_cons_of (c : Char) (t : List Char) (h1 : wsp c = false)
    (h2 : ∀ d, (c :: t).getLast? = some d → wsp d = false) :
    trimChars (c :: t) = c :: t := by
  unfold trimChars
  rw [List.dropWhile_cons_of_neg (by simp [h1])]
  refine List.rdropWhile_eq_self_iff.mpr fun hl => ?_
  have hg := h2 ((c :: t).getLast hl) (List.getLast?_eq_getLast _ hl)
  simp [hg]

theorem wsp_eq_false_of_isDigit {c : Char} (h : c.isDigit = true) : wsp c = false := by
  cases hw : wsp c
  · rfl
  · exact absurd hw (not_wsp_of_isDigit h)

theorem getLast?_append_right {A B : List Char} (h : B ≠ []) :
    (A ++ B).getLast? = B.getLast? := by
  rw [List.getLast?_append]
  rcases B with _ | ⟨b, t⟩
  · exact absurd rfl h
  · rw [List.getLast?_eq_getLast (b :: t) (by simp)]
    rfl

/-- The whole quantity-line evaluation on a marker line
`<marker> <digits><rest>`: the digits parse as the value and the
continuation decides the sign. -/
theorem parseQtyLine_marker_digits (ds rest : List Char) (neg : Bool)
    (hne : ds ≠ []) (hdig : ∀ c ∈ ds, c.isDigit = true)
    (hhead : ∀ c t, rest = c :: t → (c.isDigit = false ∧ c ≠ '.' ∧ wsp c = false))
    (hlast : ∀ d, rest.getLast? = some d → wsp d = false)
    (hcont : contAfterNum (ds.getLastD '0') rest = some neg) :
    parseQtyLine stockMarker (String.mk (stockMarker.data ++ (' ' :: (ds ++ rest))))
      = some (if neg then -(ratOfDigits ds) else ratOfDigits ds) := by
  have hdsrest : ds ++ rest ≠ [] := by
    intro hx
    exact hne (List.append_eq_nil.mp hx).1
  have hlast2 : ∀ d, (ds ++ rest).getLast? = some d → wsp d = false := by
    intro d hd
    rcases hrest : rest with _ | ⟨c, t⟩
    · rw [hrest, List.append_nil] at hd
      have hmem : d ∈ ds := List.mem_of_getLast?_eq_some hd
      exact wsp_eq_false_of_isDigit (hdig d hmem)
    · rw [hrest, getLast?_append_right (by simp)] at hd
      exact hlast d (hrest ▸ hd)
  have htrimTail : trimChars (' ' :: (ds ++ rest)) = ds ++ rest := by
    unfold trimChars
    rw [List.dropWhile_cons_of_pos (by decide)]
    rcases hds : ds with _ | ⟨d0, ds2⟩
    · exact absurd hds hne
    · rw [List.cons_append,
        List.dropWhile_cons_of_neg
          (not_wsp_of_isDigit (hdig d0 (hds ▸ List.mem_cons_self _ _))),
        ← List.cons_append, ← hds]
      refine List.rdropWhile_eq_self_iff.mpr fun hl => ?_
      have := hlast2 _ (List.getLast?_eq_getLast _ hl)
      simp [this]
  have hSM : stockMarker.data = 'S' :: "tock on 31.12.9999".data := rfl
  have htrimL : trimChars (stockMarker.data ++ (' ' :: (ds ++ rest)))
      = stockMarker.data ++ (' ' :: (ds ++ rest)) := by
    rw [hSM, List.cons_append]
    apply trimChars_cons_of
    · decide
    · intro d hd
      rw [← List.cons_append, ← hSM] at hd
      rw [getLast?_append_right (by simp)] at hd
      rw [show (' ' :: (ds ++ rest)) = [' '] ++ (ds ++ rest) from rfl,
        getLast?_append_right hdsrest] at hd
      exact hlast2 d hd
  have hmatch : firstQtyMatch (ds ++ rest) = some (ratOfDigits ds, neg) := by
    apply firstQtyMatch_of_tryNumAt ds rest _ hne hdig
    exact tryNumAt_digits ds rest neg hne hdig
      (fun c t h => ⟨(hhead c t h).1, (hhead c t h).2.1⟩) hcont
  unfold parseQtyLine
  dsimp only
  rw [show jsTrim (String.mk (stockMarker.data ++ (' ' :: (ds ++ rest))))
      = String.mk (stockMarker.data ++ (' ' :: (ds ++ rest))) from by
    unfold jsTrim
    rw [htrimL]]
  rw [show strStartsWith (String.mk (stockMarker.data ++ (' ' :: (ds ++ rest))))
      stockMarker = true from by
    simp [strStartsWith, List.isPrefixOf_iff_prefix]]
  simp only [Bool.not_true, Bool.false_eq_true, if_false]
  rw [show (String.mk (stockMarker.data ++ (' ' :: (ds ++ rest)))).data.drop
        stockMarker.length = ' ' :: (ds ++ rest) from by
    rw [show stockMarker.length = stockMarker.data.length from rfl]
    exact List.drop_left _ _]
  rw [show jsTrim (String.mk (' ' :: (ds ++ rest))) = String.mk (ds ++ rest) from by
    unfold jsTrim
    rw [htrimTail]]
  rw [hmatch]

/-- C6 (amended): the block's closing quantity is the first match of the
quantity parser over the first 140 non-empty first-column lines, 0.0 when
no line matches; a line not starting (trimmed) with the fixed marker
never matches; and for a numeric value after the marker, a trailing minus
negates the value when a unit token follows it, while a bare trailing
minus (nothing after it) is dropped by the pattern's trailing word
boundary and leaves the value positive; the unit token is optional. -/
theorem C6_closing_stock :
    (∀ (block : List (List String)) (matPad slocPad : Nat),
      (parseBlock block matPad slocPad).SAP_SOH_MB5B =
        (((linesZero block).take 140).findSome? (parseQtyLine stockMarker)).getD 0) ∧
    (∀ block : List (List String),
      (((linesZero block).take 140).findSome? (parseQtyLine stockMarker) = none ↔
        ∀ line ∈ (linesZero block).take 140, parseQtyLine stockMarker line = none) ∧
      (∀ q, ((linesZero block).take 140).findSome? (parseQtyLine stockMarker) = some q →
        ∃ pre x post, (linesZero block).take 140 = pre ++ x :: post ∧
          (∀ y ∈ pre, parseQtyLine stockMarker y = none) ∧
          parseQtyLine stockMarker x = some q)) ∧
    (∀ s : String, strStartsWith (jsTrim s) stockMarker = false →
      parseQtyLine stockMarker s = none) ∧
    (∀ ds : List Char, ds ≠ [] → (∀ c ∈ ds, c.isDigit = true) →
      ∀ u ∈ qtyUnits,
        parseQtyLine stockMarker
            (String.mk (stockMarker.data ++ (' ' :: (ds ++ '-' :: u.data)))) =
          some (-(ratOfDigits ds)) ∧
        parseQtyLine stockMarker
            (String.mk (stockMarker.data ++ (' ' :: (ds ++ ['-'])))) =
          some (ratOfDigits ds) ∧
        parseQtyLine stockMarker
            (String.mk (stockMarker.data ++ (' ' :: (ds ++ u.data)))) =
          some (ratOfDigits ds) ∧
        parseQtyLine stockMarker (String.mk (stockMarker.data ++ (' ' :: ds))) =
          some (ratOfDigits ds)) := by
  refine ⟨?_, ?_, ?_, ?_⟩
  · intro block matPad slocPad
    unfold parseBlock
    dsimp only
    rw [blockScan_closeQty]
  · intro block
    exact ⟨List.findSome?_eq_none_iff, fun q h => findSome?_eq_some_split _ _ q h⟩
  · exact parseQtyLine_not_marker
  · intro ds hne hdig u hu
    have hld := getLastD_isDigit ds hne hdig
    refine ⟨?_, ?_, ?_, ?_⟩
    · have hh : ∀ c t, ('-' :: u.data) = c :: t →
          (c.isDigit = false ∧ c ≠ '.' ∧ wsp c = false) := by
        intro c t h2
        injection h2 with h3 h4
        subst h3
        exact ⟨by decide, by decide, by decide⟩
      have hl : ∀ d, ('-' :: u.data).getLast? = some d → wsp d = false := by
        fin_cases hu <;> (intro d hd; simp at hd; subst hd; decide)
      have hc : contAfterNum (ds.getLastD '0') ('-' :: u.data) = some true := by
        fin_cases hu <;> rfl
      simpa using parseQtyLine_marker_digits ds ('-' :: u.data) true hne hdig hh hl hc
    · have hh : ∀ c t, (['-'] : List Char) = c :: t →
          (c.isDigit = false ∧ c ≠ '.' ∧ wsp c = false) := by
        intro c t h2
        injection h2 with h3 h4
        subst h3
        exact ⟨by decide, by decide, by decide⟩
      have hl : ∀ d, (['-'] : List Char).getLast? = some d → wsp d = false := by
        intro d hd
        simp at hd
        subst hd
        decide
      simpa using parseQtyLine_marker_digits ds ['-'] false hne hdig hh hl
        (contAfterNum_bare_minus _ hld)
    · have hh : ∀ c t, u.data = c :: t →
          (c.isDigit = false ∧ c ≠ '.' ∧ wsp c = false) := by
        fin_cases hu <;>
          (intro c t h2; injection h2 with h3 h4; subst h3;
            exact ⟨by decide, by decide, by decide⟩)
      have hl : ∀ d, u.data.getLast? = some d → wsp d = false := by
        fin_cases hu <;> (intro d hd; simp at hd; subst hd; decide)
      have hc : contAfterNum (ds.getLastD '0') u.data = some false := by
        fin_cases hu <;> rfl
      simpa using parseQtyLine_marker_digits ds u.data false hne hdig hh hl hc
    · have h := parseQtyLine_marker_digits ds [] false hne hdig
        (by intro c t h2; simp at h2) (by intro d hd; simp at hd)
        (contAfterNum_nil _ hld)
      simpa using h

theorem C6_witness :
    (['1', '0', '0'] : List Char) ≠ [] ∧
      parseQtyLine stockMarker
          (String.mk (stockMarker.data ++ (' ' :: (['1', '0', '0'] ++ '-' :: "EA".data)))) =
        some (-(ratOfDigits ['1', '0', '0'])) :=
  ⟨by decide,
    (C6_closing_stock.2.2.2 ['1', '0', '0'] (by decide) (by decide) "EA"
      (by decide)).1⟩

end GapScan
